import Mathlib

/-!
Verification of the video-reencode-test pipeline orchestrator.

The embedding follows the two source files:

* `src/src/App.tsx` — the React orchestrator: the `pendingRef` correlation
  registry (a JS object mapping `runId:phase` keys to resolve/reject pairs),
  the worker `onmessage` handler, `workerConcat`, `workerReencodeMp4`
  (with its fixed `mp4Args` profile), and `runAutomated`.
* the ffmpeg worker (`src/unnamed/part_000`) — `ensureLoaded` with its
  rich→degraded fallback, and `self.onmessage` with its `concat`,
  `reencode` and catch-all branches operating on the ffmpeg virtual
  file system.

JS objects keyed by strings are embedded as association lists with unique
keys (`assocLookup` / `assocSet` / `assocRemove`); a continuation
(resolve/reject pair) is identified by a `Nat` tag, and a settlement is the
pair of the tag and the delivered `Outcome`.  Blobs/ArrayBuffers are byte
lists; object URLs, timestamps and the DOM are outside the model.
-/

set_option autoImplicit false

deriving instance DecidableEq for Except

namespace VideoReencode

/-! ## Association lists: the embedding of JS string-keyed objects -/

/-- Lookup of a key in a JS-object model (first binding wins; the maps we
build keep keys unique, matching JS object semantics). -/
def assocLookup {α : Type} (m : List (String × α)) (k : String) : Option α :=
  match m with
  | [] => none
  | (k₁, v) :: rest => if k₁ = k then some v else assocLookup rest k

/-- `obj[k] = v` on a JS-object model: replaces the binding when the key is
present, appends it otherwise. -/
def assocSet {α : Type} (m : List (String × α)) (k : String) (v : α) :
    List (String × α) :=
  match m with
  | [] => [(k, v)]
  | (k₁, v₁) :: rest =>
      if k₁ = k then (k, v) :: rest else (k₁, v₁) :: assocSet rest k v

/-- `delete obj[k]` on a JS-object model: removes the binding for `k`
(no effect when absent). -/
def assocRemove {α : Type} (m : List (String × α)) (k : String) :
    List (String × α) :=
  match m with
  | [] => []
  | (k₁, v₁) :: rest =>
      if k₁ = k then rest else (k₁, v₁) :: assocRemove rest k

theorem assocLookup_set_self {α : Type} (m : List (String × α)) (k : String)
    (v : α) : assocLookup (assocSet m k v) k = some v := by
  induction m with
  | nil => simp [assocSet, assocLookup]
  | cons hd tl ih =>
      obtain ⟨k₁, v₁⟩ := hd
      by_cases h : k₁ = k <;> simp [assocSet, assocLookup, h, ih]

theorem assocLookup_set_other {α : Type} (m : List (String × α))
    (k k' : String) (v : α) (h : k' ≠ k) :
    assocLookup (assocSet m k v) k' = assocLookup m k' := by
  induction m with
  | nil => simp [assocSet, assocLookup, Ne.symm h]
  | cons hd tl ih =>
      obtain ⟨k₁, v₁⟩ := hd
      by_cases h₁ : k₁ = k
      · subst h₁
        simp [assocSet, assocLookup, Ne.symm h]
      · simp [assocSet, assocLookup, h₁, ih]

theorem assocLookup_remove_self {α : Type} (m : List (String × α))
    (k : String) (hnd : (m.map Prod.fst).Nodup) :
    assocLookup (assocRemove m k) k = none := by
  induction m with
  | nil => simp [assocRemove, assocLookup]
  | cons hd tl ih =>
      obtain ⟨k₁, v₁⟩ := hd
      simp only [List.map_cons, List.nodup_cons] at hnd
      by_cases h : k₁ = k
      · subst h
        simp only [assocRemove, if_pos rfl]
        -- `k₁` does not occur among the tail's keys, so lookup misses.
        clear ih
        induction tl with
        | nil => simp [assocLookup]
        | cons hd₂ tl₂ ih₂ =>
            obtain ⟨k₂, v₂⟩ := hd₂
            simp only [List.map_cons, List.mem_cons, List.nodup_cons,
              not_or] at hnd
            have hne : k₂ ≠ k₁ := fun h => hnd.1.1 h.symm
            simp only [assocLookup, if_neg (fun h => hne h)]
            exact ih₂ ⟨hnd.1.2, hnd.2.2⟩
      · simp only [assocRemove, if_neg h, assocLookup, if_neg h]
        exact ih hnd.2

theorem assocLookup_remove_other {α : Type} (m : List (String × α))
    (k k' : String) (h : k' ≠ k) :
    assocLookup (assocRemove m k) k' = assocLookup m k' := by
  induction m with
  | nil => simp [assocRemove]
  | cons hd tl ih =>
      obtain ⟨k₁, v₁⟩ := hd
      by_cases h₁ : k₁ = k
      · subst h₁
        simp [assocRemove, assocLookup, Ne.symm h]
      · simp [assocRemove, assocLookup, h₁, ih]

/-! ## Messages

`WMsg` is the message type posted by the ffmpeg worker and consumed by the
App's `onmessage` handler (`WorkerMsg` in `App.tsx`, `WorkerResponse` in the
worker).  An `ArrayBuffer` is embedded as a byte list. -/

inductive WMsg : Type where
  | loaded : WMsg
  | progress (message : String) : WMsg
  | result (outputName mimeType : String) (data : List Nat)
      (runId phase : Option String) : WMsg
  | error (message : String) (runId phase : Option String) : WMsg
deriving DecidableEq

/-- What a settled continuation receives: `resolve({blob, mime, bytes})`
(the blob's contents are its byte count here) or `reject(new Error(msg))`. -/
inductive Outcome : Type where
  | resolved (bytes : Nat) (mime : String) : Outcome
  | rejected (message : String) : Outcome
deriving DecidableEq

/-- An `OutputVideo` as stored in the `rawMerged` / `mp4` React state
(`label`, blob contents, `mime`; the object URL is outside the model). -/
structure OutputVideo : Type where
  label : String
  data : List Nat
  mime : String
deriving DecidableEq

/-- The App-side state touched by the worker `onmessage` handler:
`pendingRef.current` (continuations named by `Nat` tags), the bounded log,
the two preview outputs and the `workerLoaded` flag. -/
structure AppState : Type where
  pending : List (String × Nat)
  logLines : List String
  rawMerged : Option OutputVideo
  mp4 : Option OutputVideo
  workerLoaded : Bool
deriving DecidableEq

/-- The correlation key built by the handler:
`` `${msg.runId ?? "no-run"}:${msg.phase ?? "no-phase"}` ``. -/
def mkKey (runId phase : Option String) : String :=
  runId.getD "no-run" ++ ":" ++ phase.getD "no-phase"

/-- Bounded rolling log: keep the most recent 350 lines (the source stores
the log as one string and trims on the line count after splitting; the
trailing-newline off-by-one of that representation is abstracted away). -/
def trim350 (ls : List String) : List String :=
  if 350 < ls.length then ls.drop (ls.length - 350) else ls

/-- `uiLog`: prefix the timestamp, append, trim. -/
def uiLogApp (now line : String) (logs : List String) : List String :=
  trim350 (logs ++ [now ++ " " ++ line])

/-- The `[ERROR]` line `uiLog`ged by the error branch of the handler. -/
def errorLogLine (message : String) (runId phase : Option String) : String :=
  "[ERROR]" ++
    (match runId with
     | some r =>
         " (" ++ r ++ (match phase with | some p => "-" ++ p | none => "") ++
           ")"
     | none => "") ++ " " ++ message

/-- The worker `onmessage` handler installed in the `useEffect` of `App`
(`App.tsx` lines 139–207).  Returns the new state and the settlements
delivered in this step (continuation tag paired with the outcome).
`now` is the wall-clock string `nowIso()` used by `uiLog`. -/
def handleMsg (st : AppState) (now : String) (msg : WMsg) :
    AppState × List (Nat × Outcome) :=
  match msg with
  | .loaded =>
      ({ st with
          workerLoaded := true
          logLines := uiLogApp now "[Worker] FFmpeg loaded." st.logLines },
       [])
  | .progress message =>
      ({ st with logLines := trim350 (st.logLines ++ [message]) }, [])
  | .error message runId phase =>
      let key := mkKey runId phase
      let line := errorLogLine message runId phase
      match assocLookup st.pending key with
      | some c =>
          ({ st with
              pending := assocRemove st.pending key
              logLines := uiLogApp now line st.logLines },
           [(c, .rejected message)])
      | none =>
          ({ st with logLines := uiLogApp now line st.logLines }, [])
  | .result outputName mimeType data runId phase =>
      let key := mkKey runId phase
      match assocLookup st.pending key with
      | some c =>
          ({ st with pending := assocRemove st.pending key },
           [(c, .resolved data.length mimeType)])
      | none =>
          -- Non-automated legacy handling: set outputs for preview.
          if outputName = "merged.webm" then
            ({ st with
                rawMerged := some ⟨"Raw merged (stream copy)", data, mimeType⟩ },
             [])
          else if outputName = "reencoded.mp4" then
            ({ st with
                mp4 := some ⟨"Re-encoded MP4 (H.264)", data, mimeType⟩ },
             [])
          else (st, [])

/-- The correlation key of a terminal (`result`/`error`) message; `none`
for `loaded`/`progress`. -/
def terminalKey : WMsg → Option String
  | .result _ _ _ runId phase => some (mkKey runId phase)
  | .error _ runId phase => some (mkKey runId phase)
  | _ => none

/-- The outcome a terminal message delivers to a matched waiter:
`result` resolves, `error` rejects. -/
def msgOutcome : WMsg → Option Outcome
  | .result _ mimeType data _ _ => some (.resolved data.length mimeType)
  | .error message _ _ => some (.rejected message)
  | _ => none

/-! ## Stage dispatch (`workerConcat` / `workerReencodeMp4`) -/

/-- Registration of a pending continuation, exactly as both stage dispatchers
do it: `` pendingRef.current[key] = { resolve, reject } `` — a plain JS
property assignment on the pending object. -/
def registerPending (pending : List (String × Nat)) (key : String)
    (c : Nat) : List (String × Nat) :=
  assocSet pending key c

/-- The phase string `workerConcat` puts in its key and message. -/
def concatPhase : String := "merge"

/-- The phase string `workerReencodeMp4` puts in its key and message. -/
def reencodePhase : String := "mp4"

/-- `` const key = `${runId}:merge` `` in `workerConcat`. -/
def concatKey (runId : String) : String := runId ++ ":merge"

/-- `` const key = `${runId}:mp4` `` in `workerReencodeMp4`. -/
def reencodeKey (runId : String) : String := runId ++ ":mp4"

/-- The fixed `mp4Args` list of `workerReencodeMp4` (`App.tsx`
lines 357–377). -/
def mp4Args : List String :=
  ["-fflags", "+genpts", "-fps_mode", "cfr", "-r", "30", "-vf", "fps=30",
   "-c:v", "libx264", "-preset", "veryfast", "-crf", "28", "-pix_fmt",
   "yuv420p", "-movflags", "+faststart", "-an"]

/-- The transcode argument profile exactly as the claim enumerates it
(generate-timestamps flag, constant-frame-rate mode, rate 30, force-30fps
filter, libx264 at CRF 28 and yuv420p, fast-start flag, audio removal —
and nothing else).  Kept separate from `mp4Args`, which is taken from the
source, so the two can be compared. -/
def claimedTranscodeProfile : List String :=
  ["-fflags", "+genpts", "-fps_mode", "cfr", "-r", "30", "-vf", "fps=30",
   "-c:v", "libx264", "-crf", "28", "-pix_fmt", "yuv420p", "-movflags",
   "+faststart", "-an"]

/-- The full command line the worker hands to `ffmpeg.exec` for a reencode
request: `["-i", req.inputName, ...req.args, req.outputName]`. -/
def reencodeExecArgs (inputName : String) (args : List String)
    (outputName : String) : List String :=
  "-i" :: inputName :: (args ++ [outputName])

/-! ## `runAutomated`

The orchestrator is embedded as a function of the outcomes of its three
fallible stages (recording loop, `workerConcat` await, `workerReencodeMp4`
await) together with the ambient data (`runId`, timestamp, the four timing
values computed from `performance.now()`).  It returns the `RunResult`
assembled at the end — `none` on every early-`return` path — and the final
value of the busy flag. -/

/-- Success or failure of one awaited stage. -/
inductive StageOut (α : Type) : Type where
  | ok (a : α) : StageOut α
  | fail (e : String) : StageOut α
deriving DecidableEq

def StageOut.isOk {α : Type} : StageOut α → Bool
  | .ok _ => true
  | .fail _ => false

/-- What a stage promise resolves with: `{ blob, bytes, mime }` (the blob
abstracted to its byte count). -/
structure StageBlob : Type where
  bytes : Nat
  mime : String
deriving DecidableEq

/-- The persisted `RunResult` structure of `App.tsx` (timings are `Int`
because `Math.round` of a float difference is an integer). -/
structure RunResult : Type where
  timestamp : String
  runId : String
  segmentCount : Nat
  segmentDurationMs : Nat
  gapMs : Nat
  segmentSizesBytes : List Nat
  mergedBytes : Nat
  mp4Bytes : Nat
  tRecordMs : Int
  tMergeMs : Int
  tMp4Ms : Int
  tTotalMs : Int
deriving DecidableEq

/-- `runAutomated` (`App.tsx` lines 438–585), as a function of its stage
outcomes.  The guards mirror the code: an early `return` when already busy
(busy flag left `true`) or when the worker is not loaded; each `catch`
branch releases the busy flag and returns without a record.  The returned
pair is (record assembled at the end — the one handed to the log appender —
and the final busy flag). -/
def runAutomatedModel (isBusy workerLoaded : Bool)
    (recordOut : StageOut (List Nat)) (mergeOut mp4Out : StageOut StageBlob)
    (runId timestamp : String) (tRecordMs tMergeMs tMp4Ms tTotalMs : Int) :
    Option RunResult × Bool :=
  if isBusy then (none, true)
  else if !workerLoaded then (none, false)
  else
    match recordOut with
    | .fail _ => (none, false)
    | .ok segSizes =>
        match mergeOut with
        | .fail _ => (none, false)
        | .ok merged =>
            match mp4Out with
            | .fail _ => (none, false)
            | .ok mp4Out =>
                (some
                  { timestamp := timestamp
                    runId := runId
                    segmentCount := 4
                    segmentDurationMs := 5000
                    gapMs := 250
                    segmentSizesBytes := segSizes
                    mergedBytes := merged.bytes
                    mp4Bytes := mp4Out.bytes
                    tRecordMs := tRecordMs
                    tMergeMs := tMergeMs
                    tMp4Ms := tMp4Ms
                    tTotalMs := tTotalMs },
                 false)

/-! ## Timing computation

`performance.now()` values are embedded as rationals; `Math.round` (round
half toward positive infinity) is `⌊x + 1/2⌋`. -/

/-- JavaScript `Math.round`. -/
def jsRound (x : ℚ) : Int := Int.floor (x + 1 / 2)

/-- The eight `performance.now()` samples `runAutomated` takes, in program
order: `startTotal`, `startRecord`, end of the recording loop, `startMerge`,
end of the merge await, `startMp4`, end of the reencode await, and the final
sample before assembling the record. -/
structure RunClock : Type where
  startTotal : ℚ
  startRecord : ℚ
  recordEnd : ℚ
  startMerge : ℚ
  mergeEnd : ℚ
  startMp4 : ℚ
  mp4End : ℚ
  totalEnd : ℚ

/-- `const tRecordMs = Math.round(performance.now() - startRecord)`. -/
def tRecordOf (c : RunClock) : Int := jsRound (c.recordEnd - c.startRecord)

/-- `const tMergeMs = Math.round(performance.now() - startMerge)`. -/
def tMergeOf (c : RunClock) : Int := jsRound (c.mergeEnd - c.startMerge)

/-- `const tMp4Ms = Math.round(performance.now() - startMp4)`. -/
def tMp4Of (c : RunClock) : Int := jsRound (c.mp4End - c.startMp4)

/-- `const tTotalMs = Math.round(performance.now() - startTotal)`. -/
def tTotalOf (c : RunClock) : Int := jsRound (c.totalEnd - c.startTotal)

/-- The samples occur in program order: each is no earlier than the one
before it. -/
def RunClock.Ordered (c : RunClock) : Prop :=
  c.startTotal ≤ c.startRecord ∧ c.startRecord ≤ c.recordEnd ∧
    c.recordEnd ≤ c.startMerge ∧ c.startMerge ≤ c.mergeEnd ∧
    c.mergeEnd ≤ c.startMp4 ∧ c.startMp4 ≤ c.mp4End ∧
    c.mp4End ≤ c.totalEnd

/-! ## The ffmpeg worker

The worker's virtual file system is an association list from artifact name
to byte contents.  `ffmpeg.writeFile` overwrites, `ffmpeg.readFile` and
`ffmpeg.deleteFile` reject (return `none` here) when the name is absent.
`ffmpeg.exec` is abstracted by a boolean `execOk` (an exec that throws /
produces no output) plus the bytes `execOut` it produces on success; thrown
exceptions surface as the `Except.error` component, while the file-system
component always reflects the writes and deletes performed before the
throw, as the stateful ffmpeg FS does. -/

/-- Engine-side storage: artifact name ↦ contents. -/
abbrev EngineFS := List (String × List Nat)

/-- `ffmpeg.writeFile`. -/
def fsWrite (fs : EngineFS) (name : String) (data : List Nat) : EngineFS :=
  assocSet fs name data

/-- `ffmpeg.readFile`; `none` models the rejection on a missing name. -/
def fsRead (fs : EngineFS) (name : String) : Option (List Nat) :=
  assocLookup fs name

/-- `ffmpeg.deleteFile`; `none` models the rejection on a missing name. -/
def fsDelete (fs : EngineFS) (name : String) : Option EngineFS :=
  match fsRead fs name with
  | none => none
  | some _ => some (assocRemove fs name)

/-- Is an artifact present? -/
def fsHas (fs : EngineFS) (name : String) : Bool :=
  (fsRead fs name).isSome

/-- The `list.txt` manifest written by the concat branch:
`req.segments.map((s) => "file '" + s.name + "'").join("\n")`. -/
def concatManifest (segments : List (String × List Nat)) : String :=
  String.intercalate "\n"
    (segments.map (fun s => "file \u0027" ++ s.1 ++ "\u0027"))

/-- `TextEncoder().encode` on the manifest text. -/
def strBytes (s : String) : List Nat := s.data.map Char.toNat

/-- `for (const seg of req.segments) await ffmpeg.deleteFile(seg.name)`:
delete the names in order; an absent name rejects, leaving the deletes
already performed in place. -/
def deleteMany (fs : EngineFS) (names : List String) :
    EngineFS × Option String :=
  match names with
  | [] => (fs, none)
  | n :: rest =>
      match fsDelete fs n with
      | none => (fs, some "delete failed")
      | some fs₁ => deleteMany fs₁ rest

/-- The concat branch of `self.onmessage` (worker lines 99–139): write each
segment, write the manifest, run the stream-copy exec, read the output back,
delete manifest / segments / output, and return the output bytes.  A throw
at any step leaves the file system as mutated up to that point and returns
the error. -/
def concatBranch (fs : EngineFS) (segments : List (String × List Nat))
    (outputName : String) (execOk : Bool) (execOut : List Nat) :
    EngineFS × Except String (List Nat) :=
  let fs₁ := segments.foldl (fun f s => fsWrite f s.1 s.2) fs
  let fs₂ := fsWrite fs₁ "list.txt" (strBytes (concatManifest segments))
  if execOk then
    let fs₃ := fsWrite fs₂ outputName execOut
    match fsRead fs₃ outputName with
    | none => (fs₃, .error "read failed")
    | some out =>
        match fsDelete fs₃ "list.txt" with
        | none => (fs₃, .error "delete failed")
        | some fs₄ =>
            match deleteMany fs₄ (segments.map Prod.fst) with
            | (fs₅, some e) => (fs₅, .error e)
            | (fs₅, none) =>
                match fsDelete fs₅ outputName with
                | none => (fs₅, .error "delete failed")
                | some fs₆ => (fs₆, .ok out)
  else (fs₂, .error "ffmpeg exec failed")

/-- `String.endsWith`, computed on the underlying character lists (the
built-in works on byte positions, which the kernel cannot evaluate). -/
def strEndsWith (s suffix : String) : Bool :=
  suffix.data.isSuffixOf s.data

/-- The reencode branch of `self.onmessage` (worker lines 141–167): write
the input, run the exec, read the output back, delete input and output, and
return the output bytes together with the mime type inferred from the
output-name suffix. -/
def reencodeBranch (fs : EngineFS) (inputName : String) (inputData : List Nat)
    (outputName : String) (execOk : Bool) (execOut : List Nat) :
    EngineFS × Except String (List Nat × String) :=
  let fs₁ := fsWrite fs inputName inputData
  if execOk then
    let fs₂ := fsWrite fs₁ outputName execOut
    match fsRead fs₂ outputName with
    | none => (fs₂, .error "read failed")
    | some out =>
        match fsDelete fs₂ inputName with
        | none => (fs₂, .error "delete failed")
        | some fs₃ =>
            match fsDelete fs₃ outputName with
            | none => (fs₃, .error "delete failed")
            | some fs₄ =>
                let mime :=
                  if strEndsWith outputName ".mp4" then "video/mp4"
                  else "application/octet-stream"
                (fs₄, .ok (out, mime))
  else (fs₁, .error "ffmpeg exec failed")

/-- `ensureLoaded` (worker lines 56–86): return immediately when already
loaded; otherwise try `ffmpeg.load` with the richer profile (core, wasm and
worker resources) and, when that throws, fall back to the degraded profile
(core and wasm only).  On success the `loaded` flag is set and exactly one
`loaded` notification is posted; when both attempts throw, the exception
propagates to the caller.  Returns the new flag and the posts made, or the
error. -/
def ensureLoadedM (loaded richOk degradedOk : Bool) :
    Except String (Bool × List WMsg) :=
  if loaded then .ok (true, [])
  else if richOk then .ok (true, [WMsg.loaded])
  else if degradedOk then .ok (true, [WMsg.loaded])
  else .error "ffmpeg load failed"

/-- A message arriving at the worker (`WorkerRequest`, plus a catch-all
constructor for any other `type` value the typed union does not cover —
the handler only ever inspects `type`, `runId` and `phase` on those). -/
inductive WRequest : Type where
  | load : WRequest
  | concat (segments : List (String × List Nat)) (outputName : String)
      (runId phase : Option String) : WRequest
  | reencode (inputName : String) (inputData : List Nat)
      (outputName : String) (args : List String)
      (runId phase : Option String) : WRequest
  | other (runId phase : Option String) : WRequest
deriving DecidableEq

/-- `req?.runId` as read in the catch block. -/
def reqRunId : WRequest → Option String
  | .load => none
  | .concat _ _ runId _ => runId
  | .reencode _ _ _ _ runId _ => runId
  | .other runId _ => runId

/-- `req?.phase` as read in the catch block. -/
def reqPhase : WRequest → Option String
  | .load => none
  | .concat _ _ _ phase => phase
  | .reencode _ _ _ _ _ phase => phase
  | .other _ phase => phase

/-- Worker state: the `loaded` flag and the ffmpeg virtual file system. -/
structure WorkerState : Type where
  loaded : Bool
  fs : EngineFS
deriving DecidableEq

/-- `self.onmessage` (worker lines 88–174).  The whole body runs in a
`try`; any throw is caught and posted as an `error` message carrying the
request's `runId`/`phase`.  Returns the new worker state and the list of
posts, in order. -/
def workerOnMessage (st : WorkerState) (req : WRequest)
    (richOk degradedOk execOk : Bool) (execOut : List Nat) :
    WorkerState × List WMsg :=
  match ensureLoadedM st.loaded richOk degradedOk with
  | .error e => (st, [.error e (reqRunId req) (reqPhase req)])
  | .ok (l, posts) =>
      match req with
      | .load => (⟨l, st.fs⟩, posts)
      | .concat segments outputName runId phase =>
          match concatBranch st.fs segments outputName execOk execOut with
          | (fs₁, .ok out) =>
              (⟨l, fs₁⟩,
               posts ++ [.result outputName "video/webm" out runId phase])
          | (fs₁, .error e) =>
              (⟨l, fs₁⟩, posts ++ [.error e runId phase])
      | .reencode inputName inputData outputName _args runId phase =>
          match reencodeBranch st.fs inputName inputData outputName execOk
              execOut with
          | (fs₁, .ok (out, mime)) =>
              (⟨l, fs₁⟩, posts ++ [.result outputName mime out runId phase])
          | (fs₁, .error e) =>
              (⟨l, fs₁⟩, posts ++ [.error e runId phase])
      | .other _ _ => (⟨l, st.fs⟩, posts)

/-- Is a post a terminal `result` or `error` response? -/
def isTerminalPost : WMsg → Bool
  | .result _ _ _ _ _ => true
  | .error _ _ _ => true
  | _ => false

/-! ## Handler lemmas -/

/-- A terminal message whose key matches a registered waiter removes that
binding and delivers exactly one settlement to it. -/
theorem handleMsg_matched (st : AppState) (now : String) (m : WMsg)
    (k : String) (c : Nat) (o : Outcome) (hk : terminalKey m = some k)
    (ho : msgOutcome m = some o) (hc : assocLookup st.pending k = some c) :
    (handleMsg st now m).2 = [(c, o)] ∧
      (handleMsg st now m).1.pending = assocRemove st.pending k := by
  cases m with
  | loaded => simp [terminalKey] at hk
  | progress message => simp [terminalKey] at hk
  | result outputName mimeType data runId phase =>
      simp only [terminalKey, Option.some.injEq] at hk
      simp only [msgOutcome, Option.some.injEq] at ho
      subst hk
      subst ho
      simp [handleMsg, hc]
  | error message runId phase =>
      simp only [terminalKey, Option.some.injEq] at hk
      simp only [msgOutcome, Option.some.injEq] at ho
      subst hk
      subst ho
      simp [handleMsg, hc]

/-- A terminal message whose key matches no registered waiter settles
nothing and leaves the pending map untouched. -/
theorem handleMsg_orphan (st : AppState) (now : String) (m : WMsg)
    (k : String) (hk : terminalKey m = some k)
    (hnone : assocLookup st.pending k = none) :
    (handleMsg st now m).2 = [] ∧
      (handleMsg st now m).1.pending = st.pending := by
  cases m with
  | loaded => simp [terminalKey] at hk
  | progress message => simp [terminalKey] at hk
  | result outputName mimeType data runId phase =>
      simp only [terminalKey, Option.some.injEq] at hk
      subst hk
      simp only [handleMsg, hnone]
      constructor
      · split <;> [rfl; split <;> rfl]
      · split <;> [rfl; split <;> rfl]
  | error message runId phase =>
      simp only [terminalKey, Option.some.injEq] at hk
      subst hk
      simp [handleMsg, hnone]

/-! ## C1 -/

/-- C1: a terminal result or error whose `(runId, phase)` key has a
registered pending continuation removes that continuation and settles it —
resolving on `result`, rejecting on `error` (`msgOutcome`) — exactly once:
the settlement list is exactly that one delivery, the key is gone from the
pending map afterwards, and a second terminal message carrying the same key
settles nothing. -/
theorem settle_exactly_once (st : AppState) (now₁ now₂ : String)
    (m₁ m₂ : WMsg) (k : String) (c : Nat) (o : Outcome)
    (hk₁ : terminalKey m₁ = some k) (ho : msgOutcome m₁ = some o)
    (hc : assocLookup st.pending k = some c)
    (hnd : (st.pending.map Prod.fst).Nodup)
    (hk₂ : terminalKey m₂ = some k) :
    (handleMsg st now₁ m₁).2 = [(c, o)] ∧
      assocLookup (handleMsg st now₁ m₁).1.pending k = none ∧
      (handleMsg (handleMsg st now₁ m₁).1 now₂ m₂).2 = [] := by
  obtain ⟨h₁, h₂⟩ := handleMsg_matched st now₁ m₁ k c o hk₁ ho hc
  have hnone : assocLookup (handleMsg st now₁ m₁).1.pending k = none := by
    rw [h₂]
    exact assocLookup_remove_self st.pending k hnd
  exact ⟨h₁, hnone,
    (handleMsg_orphan (handleMsg st now₁ m₁).1 now₂ m₂ k hk₂ hnone).1⟩

/-- C1 witness: a concrete run with waiter `7` registered under
`"r:merge"`; a matching result settles it once and a late error for the
same key settles nothing. -/
theorem settle_exactly_once_witness :
    terminalKey (WMsg.result "merged.webm" "video/webm" [1, 2] (some "r")
        (some "merge")) = some "r:merge" ∧
    msgOutcome (WMsg.result "merged.webm" "video/webm" [1, 2] (some "r")
        (some "merge")) = some (Outcome.resolved 2 "video/webm") ∧
    assocLookup ([("r:merge", 7)] : List (String × Nat)) "r:merge" = some 7 ∧
    terminalKey (WMsg.error "late" (some "r") (some "merge")) =
      some "r:merge" ∧
    ((handleMsg ⟨[("r:merge", 7)], [], none, none, true⟩ "t1"
        (WMsg.result "merged.webm" "video/webm" [1, 2] (some "r")
          (some "merge"))).2 = [(7, Outcome.resolved 2 "video/webm")] ∧
      assocLookup (handleMsg ⟨[("r:merge", 7)], [], none, none, true⟩ "t1"
        (WMsg.result "merged.webm" "video/webm" [1, 2] (some "r")
          (some "merge"))).1.pending "r:merge" = none ∧
      (handleMsg (handleMsg ⟨[("r:merge", 7)], [], none, none, true⟩ "t1"
        (WMsg.result "merged.webm" "video/webm" [1, 2] (some "r")
          (some "merge"))).1 "t2"
        (WMsg.error "late" (some "r") (some "merge"))).2 = []) :=
  ⟨by decide, by decide, by decide, by decide,
    settle_exactly_once ⟨[("r:merge", 7)], [], none, none, true⟩ "t1" "t2"
      (WMsg.result "merged.webm" "video/webm" [1, 2] (some "r")
        (some "merge"))
      (WMsg.error "late" (some "r") (some "merge")) "r:merge" 7
      (Outcome.resolved 2 "video/webm") (by decide) (by decide) (by decide)
      (by decide) (by decide)⟩

/-! ## C2 -/

/-- C2 counterexample: registering under a key that is already pending does
not fail — `workerConcat`/`workerReencodeMp4` assign into the pending
object unconditionally, so the call succeeds and the already-pending
continuation (tag `1`) is silently replaced by the new one (tag `2`).
There is no `DuplicateKey` error anywhere in the code. -/
theorem register_duplicate_counterexample :
    registerPending [("r1:merge", 1)] "r1:merge" 2 = [("r1:merge", 2)] ∧
      assocLookup (registerPending [("r1:merge", 1)] "r1:merge" 2)
        "r1:merge" = some 2 := by
  decide

/-- C2 amended: registering a pending continuation while one is already
pending for the same key silently replaces it — the new continuation
becomes the registered one, the prior continuation is lost without any
settlement, and no error is raised; bindings under other keys are
untouched. -/
theorem register_overwrites (pending : List (String × Nat)) (key : String)
    (c : Nat) (k' : String) (h : k' ≠ key) :
    assocLookup (registerPending pending key c) key = some c ∧
      assocLookup (registerPending pending key c) k' =
        assocLookup pending k' :=
  ⟨assocLookup_set_self pending key c,
    assocLookup_set_other pending key k' c h⟩

/-- C2 amended witness: overwriting the waiter under `"r1:merge"` while the
binding under `"r2:merge"` is untouched. -/
theorem register_overwrites_witness :
    ("r2:merge" : String) ≠ "r1:merge" ∧
      (assocLookup (registerPending [("r1:merge", 1), ("r2:merge", 9)]
          "r1:merge" 2) "r1:merge" = some 2 ∧
        assocLookup (registerPending [("r1:merge", 1), ("r2:merge", 9)]
          "r1:merge" 2) "r2:merge" =
          assocLookup [("r1:merge", 1), ("r2:merge", 9)] "r2:merge") :=
  ⟨by decide,
    register_overwrites [("r1:merge", 1), ("r2:merge", 9)] "r1:merge" 2
      "r2:merge" (by decide)⟩

/-! ## C3 -/

/-- C3 counterexample: an orphan `result` (key `"x:merge"`, no waiter) is
not "silently dropped apart from being logged": the handler appends no log
line, and instead routes the payload to the legacy preview handling,
storing it as the `rawMerged` output.  (The pending map is untouched and
nothing settles, but the "logged-and-dropped" clause of the claim is
false.) -/
theorem orphan_result_counterexample :
    (handleMsg ⟨[("a:merge", 5)], [], none, none, true⟩ "t"
        (WMsg.result "merged.webm" "video/webm" [9] (some "x")
          (some "merge"))).1.logLines = [] ∧
      (handleMsg ⟨[("a:merge", 5)], [], none, none, true⟩ "t"
        (WMsg.result "merged.webm" "video/webm" [9] (some "x")
          (some "merge"))).1.rawMerged =
        some ⟨"Raw merged (stream copy)", [9], "video/webm"⟩ ∧
      (⟨[("a:merge", 5)], [], none, none, true⟩ : AppState).rawMerged =
        none := by
  decide

/-- C3 amended: an inbound terminal message with no matching waiter raises
no exception (the handler is total and returns normally), settles no
continuation, and leaves the pending map — hence every other pending
request — unchanged.  An orphan `error` is logged with the `[ERROR]` line
and has no other effect; an orphan `result` is not logged but is routed to
the legacy preview handling instead. -/
theorem orphan_events_handled (st : AppState) (now : String) :
    (∀ (emsg : String) (rid ph : Option String),
        assocLookup st.pending (mkKey rid ph) = none →
          (handleMsg st now (WMsg.error emsg rid ph)).2 = [] ∧
          (handleMsg st now (WMsg.error emsg rid ph)).1.pending =
            st.pending ∧
          (handleMsg st now (WMsg.error emsg rid ph)).1.logLines =
            uiLogApp now (errorLogLine emsg rid ph) st.logLines ∧
          (handleMsg st now (WMsg.error emsg rid ph)).1.rawMerged =
            st.rawMerged ∧
          (handleMsg st now (WMsg.error emsg rid ph)).1.mp4 = st.mp4) ∧
    (∀ (oname mi : String) (d : List Nat) (rid ph : Option String),
        assocLookup st.pending (mkKey rid ph) = none →
          (handleMsg st now (WMsg.result oname mi d rid ph)).2 = [] ∧
          (handleMsg st now (WMsg.result oname mi d rid ph)).1.pending =
            st.pending ∧
          (handleMsg st now (WMsg.result oname mi d rid ph)).1.logLines =
            st.logLines) := by
  constructor
  · intro emsg rid ph hnone
    simp [handleMsg, hnone]
  · intro oname mi d rid ph hnone
    simp only [handleMsg, hnone]
    refine ⟨?_, ?_, ?_⟩ <;> (split <;> [rfl; split <;> rfl])

/-- C3 amended witness: an orphan error is logged and dropped; an orphan
result is unlogged, settles nothing and leaves the pending map alone. -/
theorem orphan_events_handled_witness :
    (assocLookup (⟨[("a:merge", 5)], [], none, none, true⟩ :
          AppState).pending (mkKey (some "x") (some "merge")) = none ∧
        ((handleMsg ⟨[("a:merge", 5)], [], none, none, true⟩ "t"
            (WMsg.error "boom" (some "x") (some "merge"))).2 = [] ∧
          (handleMsg ⟨[("a:merge", 5)], [], none, none, true⟩ "t"
            (WMsg.error "boom" (some "x") (some "merge"))).1.pending =
            [("a:merge", 5)])) ∧
      ((handleMsg ⟨[("a:merge", 5)], [], none, none, true⟩ "t"
          (WMsg.result "merged.webm" "video/webm" [9] (some "x")
            (some "merge"))).2 = [] ∧
        (handleMsg ⟨[("a:merge", 5)], [], none, none, true⟩ "t"
          (WMsg.result "merged.webm" "video/webm" [9] (some "x")
            (some "merge"))).1.pending = [("a:merge", 5)]) :=
  ⟨⟨by decide,
      ((orphan_events_handled ⟨[("a:merge", 5)], [], none, none, true⟩
        "t").1 "boom" (some "x") (some "merge") (by decide)).1,
      ((orphan_events_handled ⟨[("a:merge", 5)], [], none, none, true⟩
        "t").1 "boom" (some "x") (some "merge") (by decide)).2.1⟩,
    ((orphan_events_handled ⟨[("a:merge", 5)], [], none, none, true⟩
        "t").2 "merged.webm" "video/webm" [9] (some "x") (some "merge")
      (by decide)).1,
    ((orphan_events_handled ⟨[("a:merge", 5)], [], none, none, true⟩
        "t").2 "merged.webm" "video/webm" [9] (some "x") (some "merge")
      (by decide)).2.1⟩

/-! ## C5 -/

/-- C5: with the entry guards passed (not busy, worker loaded), the
automated run assembles and emits a `RunResult` exactly when all three
stages — recording, merge, reencode — succeed; a failure of any stage
returns early with no record (and a busy or not-yet-loaded entry also
produces none). -/
theorem result_record_iff_all_stages (recordOut : StageOut (List Nat))
    (mergeOut mp4Out : StageOut StageBlob) (runId timestamp : String)
    (tR tM tP tT : Int) :
    ((runAutomatedModel false true recordOut mergeOut mp4Out runId timestamp
          tR tM tP tT).1.isSome = true ↔
        (recordOut.isOk = true ∧ mergeOut.isOk = true ∧
          mp4Out.isOk = true)) ∧
      (runAutomatedModel true true recordOut mergeOut mp4Out runId timestamp
        tR tM tP tT).1 = none ∧
      (runAutomatedModel false false recordOut mergeOut mp4Out runId
        timestamp tR tM tP tT).1 = none := by
  refine ⟨?_, by simp [runAutomatedModel], by simp [runAutomatedModel]⟩
  cases recordOut with
  | fail e => simp [runAutomatedModel, StageOut.isOk]
  | ok segSizes =>
      cases mergeOut with
      | fail e => simp [runAutomatedModel, StageOut.isOk]
      | ok merged =>
          cases mp4Out with
          | fail e => simp [runAutomatedModel, StageOut.isOk]
          | ok mp4Blob => simp [runAutomatedModel, StageOut.isOk]

/-! ## C6 -/

/-- `performance.now()` samples exhibiting the rounding slack: the
recording loop spans 0.4 ms, the merge and reencode awaits 0.5 ms each,
with no gaps. -/
def clockEx : RunClock :=
  ⟨0, 0, 2 / 5, 2 / 5, 9 / 10, 9 / 10, 7 / 5, 7 / 5⟩

/-- C6 counterexample: at these (program-ordered) samples the code computes
`tRecordMs = 0` (not `> 0`) and `tRecordMs + tMergeMs + tMp4Ms = 2 >
1 = tTotalMs` — both parts of the claim fail, because the four timings are
rounded independently. -/
theorem timing_claim_counterexample :
    clockEx.Ordered ∧ tRecordOf clockEx = 0 ∧ tMergeOf clockEx = 1 ∧
      tMp4Of clockEx = 1 ∧ tTotalOf clockEx = 1 ∧
      ¬(0 < tRecordOf clockEx ∧
        tRecordOf clockEx + tMergeOf clockEx + tMp4Of clockEx ≤
          tTotalOf clockEx) := by
  refine ⟨?_, ?_, ?_, ?_, ?_, ?_⟩ <;>
    norm_num [RunClock.Ordered, tRecordOf, tMergeOf, tMp4Of, tTotalOf,
      jsRound, clockEx]

theorem jsRound_nonneg (x : ℚ) (h : 0 ≤ x) : 0 ≤ jsRound x := by
  rw [jsRound, Int.le_floor]
  push_cast
  linarith

theorem jsRound_mono (x y : ℚ) (h : x ≤ y) : jsRound x ≤ jsRound y :=
  Int.floor_le_floor (by linarith)

theorem jsRound_add_three (a b c : ℚ) :
    jsRound a + jsRound b + jsRound c ≤ jsRound (a + b + c) + 1 := by
  have ha := Int.floor_le (a + 1 / 2)
  have hb := Int.floor_le (b + 1 / 2)
  have hc := Int.floor_le (c + 1 / 2)
  have h : jsRound a + jsRound b + jsRound c - 1 ≤ jsRound (a + b + c) := by
    simp only [jsRound]
    rw [Int.le_floor]
    push_cast
    linarith
  omega

/-- C6 amended: with the eight `performance.now()` samples in program
order, each computed timing field is nonnegative (not necessarily positive:
a stage faster than half a millisecond rounds to 0) and the total can fall
short of the sum of the three stage timings by at most 1 ms of independent-
rounding slack: `tRecordMs + tMergeMs + tMp4Ms ≤ tTotalMs + 1`. -/
theorem timing_fields_bounds (c : RunClock) (h : c.Ordered) :
    0 ≤ tRecordOf c ∧ 0 ≤ tMergeOf c ∧ 0 ≤ tMp4Of c ∧ 0 ≤ tTotalOf c ∧
      tRecordOf c + tMergeOf c + tMp4Of c ≤ tTotalOf c + 1 := by
  obtain ⟨h₁, h₂, h₃, h₄, h₅, h₆, h₇⟩ := h
  refine ⟨jsRound_nonneg _ (by linarith), jsRound_nonneg _ (by linarith),
    jsRound_nonneg _ (by linarith), jsRound_nonneg _ (by linarith), ?_⟩
  have hsum := jsRound_add_three (c.recordEnd - c.startRecord)
    (c.mergeEnd - c.startMerge) (c.mp4End - c.startMp4)
  have hmono : jsRound ((c.recordEnd - c.startRecord) +
      (c.mergeEnd - c.startMerge) + (c.mp4End - c.startMp4)) ≤
      jsRound (c.totalEnd - c.startTotal) :=
    jsRound_mono _ _ (by linarith)
  rw [tRecordOf, tMergeOf, tMp4Of, tTotalOf]
  omega

/-- C6 amended witness: samples 0,0,1,1,2,2,3,3 — each stage takes 1 ms,
every field is nonnegative and the sum bound holds. -/
theorem timing_fields_bounds_witness :
    (RunClock.Ordered ⟨0, 0, 1, 1, 2, 2, 3, 3⟩) ∧
      (0 ≤ tRecordOf ⟨0, 0, 1, 1, 2, 2, 3, 3⟩ ∧
        0 ≤ tMergeOf ⟨0, 0, 1, 1, 2, 2, 3, 3⟩ ∧
        0 ≤ tMp4Of ⟨0, 0, 1, 1, 2, 2, 3, 3⟩ ∧
        0 ≤ tTotalOf ⟨0, 0, 1, 1, 2, 2, 3, 3⟩ ∧
        tRecordOf ⟨0, 0, 1, 1, 2, 2, 3, 3⟩ +
            tMergeOf ⟨0, 0, 1, 1, 2, 2, 3, 3⟩ +
            tMp4Of ⟨0, 0, 1, 1, 2, 2, 3, 3⟩ ≤
          tTotalOf ⟨0, 0, 1, 1, 2, 2, 3, 3⟩ + 1) :=
  ⟨by norm_num [RunClock.Ordered],
    timing_fields_bounds ⟨0, 0, 1, 1, 2, 2, 3, 3⟩
      (by norm_num [RunClock.Ordered])⟩

/-! ## C7 -/

/-- C7 counterexample: the argument list `workerReencodeMp4` sends is not
exactly the claim's enumerated profile — it additionally carries the
x264 speed preset `-preset veryfast`, which the enumeration does not
mention. -/
theorem transcode_args_counterexample :
    mp4Args ≠ claimedTranscodeProfile ∧
      "-preset" ∈ mp4Args ∧ "-preset" ∉ claimedTranscodeProfile := by
  decide

/-- C7 amended: the argument list passed to the engine is the claim's
enumerated fixed profile with exactly one addition — the encoder speed
preset `-preset veryfast`, inserted after the codec selection — and
nothing else varies; the worker prepends `-i <input>` and appends the
output name when invoking the engine. -/
theorem transcode_args_fixed_profile :
    mp4Args =
      claimedTranscodeProfile.take 10 ++ ["-preset", "veryfast"] ++
        claimedTranscodeProfile.drop 10 ∧
      reencodeExecArgs "merged.webm" mp4Args "reencoded.mp4" =
        "-i" :: "merged.webm" :: (mp4Args ++ ["reencoded.mp4"]) := by
  decide

/-! ## C8 -/

/-- C8 counterexample: the reencode stage's correlation key for run `"r"`
is `"r:mp4"`, whose phase component is `"mp4"` — not a member of the
claim's enumerated set `{merge, transcode}`. -/
theorem phase_enumeration_counterexample :
    reencodeKey "r" = "r:mp4" ∧ reencodePhase = "mp4" ∧
      reencodePhase ∉ (["merge", "transcode"] : List String) := by
  decide

/-- C8 amended: the two phases used as correlation-key components during an
automated run are `merge` (concat stage) and `mp4` (reencode stage); each
key is the run id, a colon, and that phase. -/
theorem phases_used (runId : String) :
    concatKey runId = runId ++ ":" ++ concatPhase ∧
      reencodeKey runId = runId ++ ":" ++ reencodePhase ∧
      concatPhase ∈ (["merge", "mp4"] : List String) ∧
      reencodePhase ∈ (["merge", "mp4"] : List String) := by
  refine ⟨?_, ?_, by decide, by decide⟩
  · rw [concatKey, concatPhase, String.append_assoc]
    rfl
  · rw [reencodeKey, reencodePhase, String.append_assoc]
    rfl

/-! ## C9 -/

/-- C9: when loading with the richer resource profile (core, wasm, worker)
throws but the degraded profile (core, wasm) succeeds, the initial `load`
request leaves the worker loaded having posted exactly one `loaded`
notification; every later `ensureLoaded` returns at once with no further
posts, and a subsequent stage call (here a reencode) succeeds — even
though any fresh load attempt would now fail. -/
theorem degraded_fallback_reaches_ready :
    workerOnMessage ⟨false, []⟩ WRequest.load false true true [] =
      (⟨true, []⟩, [WMsg.loaded]) ∧
      (∀ richOk degradedOk : Bool,
        ensureLoadedM true richOk degradedOk = Except.ok (true, [])) ∧
      workerOnMessage ⟨true, []⟩
        (WRequest.reencode "merged.webm" [1] "reencoded.mp4" mp4Args
          (some "r") (some "mp4")) false false true [7] =
        (⟨true, []⟩,
         [WMsg.result "reencoded.mp4" "video/mp4" [7] (some "r")
           (some "mp4")]) := by
  exact ⟨by decide, fun _ _ => rfl, by decide⟩

/-! ## C10 -/

/-- C10 counterexample: a request of unknown type arriving while the engine
is not loaded and both load profiles fail does get a response — the lazy
load throws and the catch block posts an `error` carrying the request's
`runId`/`phase`, so a caller awaiting that key would be settled
(rejected). -/
theorem unknown_request_counterexample :
    (workerOnMessage ⟨false, []⟩ (WRequest.other (some "x") (some "y"))
        false false true []).2 =
      [WMsg.error "ffmpeg load failed" (some "x") (some "y")] ∧
      ((workerOnMessage ⟨false, []⟩ (WRequest.other (some "x") (some "y"))
        false false true []).2.any isTerminalPost) = true := by
  decide

/-- C10 amended: a message of unknown request type still triggers lazy
loading; when the engine is already loaded or the load succeeds, the
handler posts neither a `result` nor an `error` (at most the `loaded`
notification) and the engine file system is untouched, so a correlated
waiter is never settled; but when the lazy load throws, the catch block
posts an `error` carrying the request's key. -/
theorem unknown_request_behavior (loaded : Bool) (fs : EngineFS)
    (rid ph : Option String) (richOk degradedOk execOk : Bool)
    (execOut : List Nat) :
    ((loaded || richOk || degradedOk) = true →
        ((workerOnMessage ⟨loaded, fs⟩ (WRequest.other rid ph) richOk
            degradedOk execOk execOut).2.all
          (fun p => !isTerminalPost p)) = true ∧
        (workerOnMessage ⟨loaded, fs⟩ (WRequest.other rid ph) richOk
          degradedOk execOk execOut).1 = ⟨true, fs⟩) ∧
      ((loaded || richOk || degradedOk) = false →
        (workerOnMessage ⟨loaded, fs⟩ (WRequest.other rid ph) richOk
            degradedOk execOk execOut).2 =
          [WMsg.error "ffmpeg load failed" rid ph]) := by
  cases loaded <;> cases richOk <;> cases degradedOk <;>
    simp [workerOnMessage, ensureLoadedM, isTerminalPost, reqRunId, reqPhase]

/-- C10 amended witness: loaded (stage calls settle nothing extra for
unknown types) and the unloaded-with-failing-profiles error case. -/
theorem unknown_request_behavior_witness :
    ((true || false || false) = true ∧
        (((workerOnMessage ⟨true, []⟩ (WRequest.other (some "x") (some "y"))
            false false true []).2.all
          (fun p => !isTerminalPost p)) = true ∧
        (workerOnMessage ⟨true, []⟩ (WRequest.other (some "x") (some "y"))
          false false true []).1 = ⟨true, []⟩)) ∧
      ((false || false || false) = false ∧
        (workerOnMessage ⟨false, []⟩ (WRequest.other (some "x") (some "y"))
            false false true []).2 =
          [WMsg.error "ffmpeg load failed" (some "x") (some "y")]) :=
  ⟨⟨by decide,
      (unknown_request_behavior true [] (some "x") (some "y") false false
        true []).1 (by decide)⟩,
    ⟨by decide,
      (unknown_request_behavior false [] (some "x") (some "y") false false
        true []).2 (by decide)⟩⟩

/-! ## Engine file-system lemmas (for C4) -/

theorem fsRead_write_self (fs : EngineFS) (n : String) (v : List Nat) :
    fsRead (fsWrite fs n v) n = some v :=
  assocLookup_set_self fs n v

theorem fsRead_write_other (fs : EngineFS) (k n : String) (v : List Nat)
    (h : n ≠ k) : fsRead (fsWrite fs k v) n = fsRead fs n :=
  assocLookup_set_other fs k n v h

theorem mem_keys_assocSet {α : Type} (m : List (String × α)) (k x : String)
    (v : α) :
    x ∈ (assocSet m k v).map Prod.fst ↔ x = k ∨ x ∈ m.map Prod.fst := by
  induction m with
  | nil => simp [assocSet]
  | cons hd tl ih =>
      obtain ⟨k₁, v₁⟩ := hd
      by_cases h : k₁ = k
      · subst h
        simp [assocSet]
      · simp [assocSet, h, ih]
        tauto

theorem nodup_keys_assocSet {α : Type} (m : List (String × α)) (k : String)
    (v : α) (h : (m.map Prod.fst).Nodup) :
    ((assocSet m k v).map Prod.fst).Nodup := by
  induction m with
  | nil => simp [assocSet]
  | cons hd tl ih =>
      obtain ⟨k₁, v₁⟩ := hd
      simp only [List.map_cons, List.nodup_cons] at h
      by_cases hk : k₁ = k
      · subst hk
        have hset : assocSet ((k₁, v₁) :: tl) k₁ v = (k₁, v) :: tl := by
          simp [assocSet]
        rw [hset, List.map_cons, List.nodup_cons]
        exact h
      · simp only [assocSet, if_neg hk, List.map_cons, List.nodup_cons]
        refine ⟨?_, ih h.2⟩
        rw [mem_keys_assocSet]
        push_neg
        exact ⟨hk, h.1⟩

theorem assocRemove_keys_sublist {α : Type} (m : List (String × α))
    (k : String) :
    ((assocRemove m k).map Prod.fst).Sublist (m.map Prod.fst) := by
  induction m with
  | nil => simp [assocRemove]
  | cons hd tl ih =>
      obtain ⟨k₁, v₁⟩ := hd
      by_cases h : k₁ = k
      · simp only [assocRemove, if_pos h, List.map_cons]
        exact List.sublist_cons_self _ _
      · simp only [assocRemove, if_neg h, List.map_cons]
        exact ih.cons₂ k₁

theorem nodup_keys_assocRemove {α : Type} (m : List (String × α))
    (k : String) (h : (m.map Prod.fst).Nodup) :
    ((assocRemove m k).map Prod.fst).Nodup :=
  h.sublist (assocRemove_keys_sublist m k)

theorem fsHas_writeAll_of (segments : List (String × List Nat))
    (fs : EngineFS) (n : String) (h : fsHas fs n = true) :
    fsHas (segments.foldl (fun f s => fsWrite f s.1 s.2) fs) n = true := by
  induction segments generalizing fs with
  | nil => simpa using h
  | cons s rest ih =>
      simp only [List.foldl_cons]
      apply ih
      by_cases hn : n = s.1
      · subst hn
        simp [fsHas, fsRead_write_self]
      · rw [fsHas, fsRead_write_other _ _ _ _ hn]
        exact h

theorem fsHas_writeAll_mem (segments : List (String × List Nat))
    (fs : EngineFS) (n : String) (h : n ∈ segments.map Prod.fst) :
    fsHas (segments.foldl (fun f s => fsWrite f s.1 s.2) fs) n = true := by
  induction segments generalizing fs with
  | nil => simp at h
  | cons s rest ih =>
      simp only [List.map_cons, List.mem_cons] at h
      simp only [List.foldl_cons]
      rcases h with h | h
      · subst h
        apply fsHas_writeAll_of
        simp [fsHas, fsRead_write_self]
      · exact ih _ h

theorem nodup_keys_writeAll (segments : List (String × List Nat))
    (fs : EngineFS) (h : (fs.map Prod.fst).Nodup) :
    ((segments.foldl (fun f s => fsWrite f s.1 s.2) fs).map
      Prod.fst).Nodup := by
  induction segments generalizing fs with
  | nil => exact h
  | cons s rest ih =>
      simp only [List.foldl_cons]
      exact ih _ (nodup_keys_assocSet fs s.1 s.2 h)

theorem nodup_keys_fsWrite (fs : EngineFS) (k : String) (v : List Nat)
    (h : (fs.map Prod.fst).Nodup) :
    ((fsWrite fs k v).map Prod.fst).Nodup :=
  nodup_keys_assocSet fs k v h

theorem fsDelete_of_has (fs : EngineFS) (n : String) (d : List Nat)
    (h : fsRead fs n = some d) :
    fsDelete fs n = some (assocRemove fs n) := by
  simp [fsDelete, h]

/-- Deleting a list of names all present in a duplicate-free file system
succeeds, removes exactly those names and preserves every other entry. -/
theorem deleteMany_spec (names : List String) (fs : EngineFS)
    (hnd : (fs.map Prod.fst).Nodup) (hnames : names.Nodup)
    (hall : ∀ n ∈ names, fsHas fs n = true) :
    ∃ fs', deleteMany fs names = (fs', none) ∧
      ((fs'.map Prod.fst).Nodup) ∧ (∀ n ∈ names, fsRead fs' n = none) ∧
      (∀ m, m ∉ names → fsRead fs' m = fsRead fs m) := by
  induction names generalizing fs with
  | nil => exact ⟨fs, rfl, hnd, by simp, fun m _ => rfl⟩
  | cons n rest ih =>
      have hhead : fsHas fs n = true := hall n (by simp)
      obtain ⟨d, hd⟩ : ∃ d, fsRead fs n = some d := by
        rw [fsHas] at hhead
        cases hread : fsRead fs n with
        | none => rw [hread] at hhead; simp at hhead
        | some d => exact ⟨d, rfl⟩
      simp only [List.nodup_cons] at hnames
      have hrest : ∀ m ∈ rest, fsHas (assocRemove fs n) m = true := by
        intro m hm
        have hne : m ≠ n := fun h => hnames.1 (h ▸ hm)
        rw [fsHas, fsRead, assocLookup_remove_other fs n m hne]
        exact hall m (List.mem_cons_of_mem n hm)
      obtain ⟨fs', hdm, hnd', hdel, hpres⟩ :=
        ih (assocRemove fs n) (nodup_keys_assocRemove fs n hnd) hnames.2
          hrest
      refine ⟨fs', ?_, hnd', ?_, ?_⟩
      · simp only [deleteMany, fsDelete_of_has fs n d hd]
        exact hdm
      · intro x hx
        rcases List.mem_cons.1 hx with h | h
        · subst h
          rw [hpres x hnames.1]
          exact assocLookup_remove_self fs x hnd
        · exact hdel x h
      · intro m hm
        simp only [List.mem_cons, not_or] at hm
        rw [hpres m hm.2, fsRead, assocLookup_remove_other fs n m hm.1]
        rfl

/-- Success path of the concat branch: the branch returns the exec output
and every artifact written for the operation — each segment, the manifest
and the output — has been deleted from engine storage. -/
theorem concatBranch_success (fs : EngineFS)
    (segments : List (String × List Nat)) (outputName : String)
    (execOut : List Nat) (hfs : (fs.map Prod.fst).Nodup)
    (hseg : (segments.map Prod.fst).Nodup)
    (hlist : "list.txt" ∉ segments.map Prod.fst)
    (hout : outputName ∉ segments.map Prod.fst)
    (houtlist : outputName ≠ "list.txt") :
    ∃ fs', concatBranch fs segments outputName true execOut =
        (fs', Except.ok execOut) ∧
      fsRead fs' outputName = none ∧ fsRead fs' "list.txt" = none ∧
      ∀ n ∈ segments.map Prod.fst, fsRead fs' n = none := by
  have hnd₁ : ((segments.foldl (fun f s => fsWrite f s.1 s.2) fs).map
      Prod.fst).Nodup := nodup_keys_writeAll segments fs hfs
  have hnd₂ := nodup_keys_fsWrite
    (segments.foldl (fun f s => fsWrite f s.1 s.2) fs) "list.txt"
    (strBytes (concatManifest segments)) hnd₁
  have hnd₃ := nodup_keys_fsWrite
    (fsWrite (segments.foldl (fun f s => fsWrite f s.1 s.2) fs) "list.txt"
      (strBytes (concatManifest segments)))
    outputName execOut hnd₂
  have hr₃out : fsRead
      (fsWrite (fsWrite (segments.foldl (fun f s => fsWrite f s.1 s.2) fs)
        "list.txt" (strBytes (concatManifest segments))) outputName execOut)
      outputName = some execOut := fsRead_write_self _ _ _
  have hr₃list : fsRead
      (fsWrite (fsWrite (segments.foldl (fun f s => fsWrite f s.1 s.2) fs)
        "list.txt" (strBytes (concatManifest segments))) outputName execOut)
      "list.txt" = some (strBytes (concatManifest segments)) := by
    rw [fsRead_write_other _ _ _ _ (Ne.symm houtlist)]
    exact fsRead_write_self _ _ _
  have hd₃ := fsDelete_of_has _ _ _ hr₃list
  have hnd₄ := nodup_keys_assocRemove
    (fsWrite (fsWrite (segments.foldl (fun f s => fsWrite f s.1 s.2) fs)
      "list.txt" (strBytes (concatManifest segments))) outputName execOut)
    "list.txt" hnd₃
  have hall : ∀ n ∈ segments.map Prod.fst,
      fsHas (assocRemove
        (fsWrite (fsWrite (segments.foldl (fun f s => fsWrite f s.1 s.2) fs)
          "list.txt" (strBytes (concatManifest segments))) outputName
          execOut) "list.txt") n = true := by
    intro n hn
    have hne₁ : n ≠ "list.txt" := fun h => hlist (h ▸ hn)
    have hne₂ : n ≠ outputName := fun h => hout (h ▸ hn)
    rw [fsHas, fsRead, assocLookup_remove_other _ _ _ hne₁,
      ← fsRead, fsRead_write_other _ _ _ _ hne₂,
      fsRead_write_other _ _ _ _ hne₁]
    exact fsHas_writeAll_mem segments fs n hn
  obtain ⟨fs₅, hdm, hnd₅, hdel₅, hpres₅⟩ :=
    deleteMany_spec (segments.map Prod.fst) _ hnd₄ hseg hall
  have hr₅out : fsRead fs₅ outputName = some execOut := by
    rw [hpres₅ outputName hout, fsRead,
      assocLookup_remove_other _ _ _ houtlist, ← fsRead]
    exact hr₃out
  have hd₅ := fsDelete_of_has _ _ _ hr₅out
  refine ⟨assocRemove fs₅ outputName, ?_, ?_, ?_, ?_⟩
  · simp only [concatBranch, if_true]
    split
    · rename_i heq
      rw [hr₃out] at heq
      simp at heq
    · rename_i out heq
      rw [hr₃out] at heq
      injection heq with hoe
      subst hoe
      split
      · rename_i heq₂
        rw [hd₃] at heq₂
        simp at heq₂
      · rename_i fs₄ heq₂
        rw [hd₃] at heq₂
        injection heq₂ with h₄
        subst h₄
        split
        · rename_i fs₅x e heq₃
          rw [hdm] at heq₃
          injection heq₃ with h₅ h₆
          simp at h₆
        · rename_i fs₅x heq₃
          rw [hdm] at heq₃
          injection heq₃ with h₅ h₆
          subst h₅
          split
          · rename_i heq₄
            rw [hd₅] at heq₄
            simp at heq₄
          · rename_i fs₆ heq₄
            rw [hd₅] at heq₄
            injection heq₄ with h₆
            subst h₆
            rfl
  · exact assocLookup_remove_self fs₅ outputName hnd₅
  · rw [fsRead, assocLookup_remove_other _ _ _ (Ne.symm houtlist), ← fsRead,
      hpres₅ "list.txt" hlist, fsRead]
    exact assocLookup_remove_self _ _ hnd₃
  · intro n hn
    have hne₂ : n ≠ outputName := fun h => hout (h ▸ hn)
    rw [fsRead, assocLookup_remove_other _ _ _ hne₂, ← fsRead]
    exact hdel₅ n hn

/-- Success path of the reencode branch: the branch returns the exec output
(tagged with the suffix-inferred mime type) and both artifacts written for
the operation — input and output — have been deleted. -/
theorem reencodeBranch_success (fs : EngineFS) (inputName : String)
    (inputData : List Nat) (outputName : String) (execOut : List Nat)
    (hfs : (fs.map Prod.fst).Nodup) (hio : inputName ≠ outputName) :
    ∃ fs', reencodeBranch fs inputName inputData outputName true execOut =
        (fs', Except.ok (execOut,
          if strEndsWith outputName ".mp4" then "video/mp4"
          else "application/octet-stream")) ∧
      fsRead fs' inputName = none ∧ fsRead fs' outputName = none := by
  have hnd₁ := nodup_keys_fsWrite fs inputName inputData hfs
  have hnd₂ := nodup_keys_fsWrite (fsWrite fs inputName inputData)
    outputName execOut hnd₁
  have hr₂out : fsRead (fsWrite (fsWrite fs inputName inputData) outputName
      execOut) outputName = some execOut := fsRead_write_self _ _ _
  have hr₂in : fsRead (fsWrite (fsWrite fs inputName inputData) outputName
      execOut) inputName = some inputData := by
    rw [fsRead_write_other _ _ _ _ hio]
    exact fsRead_write_self _ _ _
  have hdin := fsDelete_of_has _ _ _ hr₂in
  have hnd₃ := nodup_keys_assocRemove
    (fsWrite (fsWrite fs inputName inputData) outputName execOut) inputName
    hnd₂
  have hr₃out : fsRead (assocRemove (fsWrite (fsWrite fs inputName
      inputData) outputName execOut) inputName) outputName =
      some execOut := by
    rw [fsRead, assocLookup_remove_other _ _ _ (Ne.symm hio), ← fsRead]
    exact hr₂out
  have hdout := fsDelete_of_has _ _ _ hr₃out
  refine ⟨assocRemove (assocRemove (fsWrite (fsWrite fs inputName inputData)
    outputName execOut) inputName) outputName, ?_, ?_, ?_⟩
  · simp only [reencodeBranch, if_true]
    split
    · rename_i heq
      rw [hr₂out] at heq
      simp at heq
    · rename_i out heq
      rw [hr₂out] at heq
      injection heq with hoe
      subst hoe
      split
      · rename_i heq₂
        rw [hdin] at heq₂
        simp at heq₂
      · rename_i fs₃ heq₂
        rw [hdin] at heq₂
        injection heq₂ with h₃
        subst h₃
        split
        · rename_i heq₃
          rw [hdout] at heq₃
          simp at heq₃
        · rename_i fs₄ heq₃
          rw [hdout] at heq₃
          injection heq₃ with h₄
          subst h₄
          rfl
  · rw [fsRead, assocLookup_remove_other _ _ _ hio]
    exact assocLookup_remove_self _ _ hnd₂
  · exact assocLookup_remove_self _ _ hnd₃

/-! ## C4 -/

/-- C4 counterexample: a concat operation whose engine invocation throws
reports an error but performs no cleanup — the segment artifact
`seg0.webm` and the manifest `list.txt` written before the invocation
remain in engine-side storage at the end of the operation. -/
theorem cleanup_counterexample :
    (concatBranch [] [("seg0.webm", [1, 2, 3])] "merged.webm" false
        []).2 = Except.error "ffmpeg exec failed" ∧
      fsHas (concatBranch [] [("seg0.webm", [1, 2, 3])] "merged.webm" false
        []).1 "seg0.webm" = true ∧
      fsHas (concatBranch [] [("seg0.webm", [1, 2, 3])] "merged.webm" false
        []).1 "list.txt" = true := by
  decide

/-- C4 amended: for concat and reencode operations, all Engine Artifacts
written for the operation (segments, manifest, stage input, stage output)
are deleted from engine-side storage when the operation succeeds — the
deletes run after the output read, before the result is posted; but when
the engine invocation throws, the catch path posts the error without any
cleanup, so the artifacts written before the throw remain in engine
storage. -/
theorem engine_artifact_cleanup (fs : EngineFS)
    (segments : List (String × List Nat)) (coutName rinName routName :
    String) (rinData execOut : List Nat)
    (hfs : (fs.map Prod.fst).Nodup)
    (hseg : (segments.map Prod.fst).Nodup)
    (hlist : "list.txt" ∉ segments.map Prod.fst)
    (hcout : coutName ∉ segments.map Prod.fst)
    (hcoutlist : coutName ≠ "list.txt") (hio : rinName ≠ routName) :
    (∃ fs', concatBranch fs segments coutName true execOut =
        (fs', Except.ok execOut) ∧
      fsRead fs' coutName = none ∧ fsRead fs' "list.txt" = none ∧
      ∀ n ∈ segments.map Prod.fst, fsRead fs' n = none) ∧
    ((concatBranch fs segments coutName false execOut).2 =
        Except.error "ffmpeg exec failed" ∧
      fsHas (concatBranch fs segments coutName false execOut).1
        "list.txt" = true ∧
      ∀ n ∈ segments.map Prod.fst,
        fsHas (concatBranch fs segments coutName false execOut).1 n =
          true) ∧
    (∃ fs', reencodeBranch fs rinName rinData routName true execOut =
        (fs', Except.ok (execOut,
          if strEndsWith routName ".mp4" then "video/mp4"
          else "application/octet-stream")) ∧
      fsRead fs' rinName = none ∧ fsRead fs' routName = none) ∧
    ((reencodeBranch fs rinName rinData routName false execOut).2 =
        Except.error "ffmpeg exec failed" ∧
      fsHas (reencodeBranch fs rinName rinData routName false execOut).1
        rinName = true) := by
  refine ⟨concatBranch_success fs segments coutName execOut hfs hseg hlist
    hcout hcoutlist, ⟨rfl, ?_, ?_⟩,
    reencodeBranch_success fs rinName rinData routName execOut hfs hio,
    rfl, ?_⟩
  · simp [concatBranch, fsHas, fsRead_write_self]
  · intro n hn
    have hne : n ≠ "list.txt" := fun h => hlist (h ▸ hn)
    show fsHas (fsWrite (segments.foldl (fun f s => fsWrite f s.1 s.2) fs)
      "list.txt" (strBytes (concatManifest segments))) n = true
    rw [fsHas, fsRead_write_other _ _ _ _ hne]
    exact fsHas_writeAll_mem segments fs n hn
  · show fsHas (fsWrite fs rinName rinData) rinName = true
    rw [fsHas, fsRead_write_self]
    rfl

/-- Two concrete recorded segments, as `workerConcat` names them. -/
def segsEx : List (String × List Nat) :=
  [("seg0.webm", [1]), ("seg1.webm", [2])]

/-- C4 amended witness: a concrete concat (two segments into
`merged.webm`) and reencode (`merged.webm` into `reencoded.mp4`), in both
their success and engine-failure variants. -/
theorem engine_artifact_cleanup_witness :
    (([] : EngineFS).map Prod.fst).Nodup ∧ (segsEx.map Prod.fst).Nodup ∧
    "list.txt" ∉ segsEx.map Prod.fst ∧
    "merged.webm" ∉ segsEx.map Prod.fst ∧
    ("merged.webm" : String) ≠ "list.txt" ∧
    ("merged.webm" : String) ≠ "reencoded.mp4" ∧
    ((∃ fs', concatBranch [] segsEx "merged.webm" true [9] =
        (fs', Except.ok [9]) ∧
      fsRead fs' "merged.webm" = none ∧ fsRead fs' "list.txt" = none ∧
      ∀ n ∈ segsEx.map Prod.fst, fsRead fs' n = none) ∧
    ((concatBranch [] segsEx "merged.webm" false [9]).2 =
        Except.error "ffmpeg exec failed" ∧
      fsHas (concatBranch [] segsEx "merged.webm" false [9]).1
        "list.txt" = true ∧
      ∀ n ∈ segsEx.map Prod.fst,
        fsHas (concatBranch [] segsEx "merged.webm" false [9]).1 n =
          true) ∧
    (∃ fs', reencodeBranch [] "merged.webm" [3] "reencoded.mp4" true [9] =
        (fs', Except.ok ([9],
          if strEndsWith "reencoded.mp4" ".mp4" then "video/mp4"
          else "application/octet-stream")) ∧
      fsRead fs' "merged.webm" = none ∧
      fsRead fs' "reencoded.mp4" = none) ∧
    ((reencodeBranch [] "merged.webm" [3] "reencoded.mp4" false [9]).2 =
        Except.error "ffmpeg exec failed" ∧
      fsHas (reencodeBranch [] "merged.webm" [3] "reencoded.mp4" false
        [9]).1 "merged.webm" = true)) :=
  ⟨by decide, by decide, by decide, by decide, by decide, by decide,
    engine_artifact_cleanup [] segsEx "merged.webm" "merged.webm"
      "reencoded.mp4" [3] [9] (by decide) (by decide) (by decide)
      (by decide) (by decide) (by decide)⟩

end VideoReencode
